import Mathlib

/-!
# The metrics catalog of `pkg/metrics/metrics.go`

The source file declares nine metric series through the vector constructors of
the metrics-registry library and two wrappers that report a successful join or
leave.  The declarations and the wrappers are embedded from the source.  The
registry primitive they call (`With`, `Inc`, `Observe`) is an external
capability; it is modelled here from the description of that capability, with
counter values as natural numbers.  A histogram compares a sample with the
`float64` value stored for each boundary constant; stored boundaries and
samples are the exact rational values of these floating-point numbers.
-/

namespace Metrics

/-! ## Series declarations -/

/-- The kind of a series, given by the constructor that declares it
(`NewCounterVec`, `NewGaugeVec`, `NewHistogramVec`). -/
inductive Kind where
  | counter
  | gauge
  | histogram
  deriving DecidableEq, Repr

/-- The options and label names handed to a vector constructor.  `buckets`
holds the boundary constants as written, and is empty for counters and
gauges. -/
structure Opts where
  name : String
  help : String
  kind : Kind
  labelNames : List String
  buckets : List ℚ

/-- Source lines 24-27. -/
def JoinResultMetrics : Opts :=
  { name := "join_result_counter"
    help := "Number of successful Join operations"
    kind := Kind.counter
    labelNames := ["result"]
    buckets := [] }

/-- Source lines 28-31. -/
def LeaveResultMetrics : Opts :=
  { name := "leave_result_counter"
    help := "Number of successful Leave operations"
    kind := Kind.counter
    labelNames := ["result"]
    buckets := [] }

/-- Source lines 32-37. -/
def WorkApplyTime : Opts :=
  { name := "work_apply_time_seconds"
    help := "Length of time between when a work resource is created/updated to when it is applied on the member cluster"
    kind := Kind.histogram
    labelNames := ["name"]
    buckets := [0.01, 0.025, 0.05, 0.1, 0.15, 0.2, 0.25, 0.3, 0.4, 0.5, 0.7, 0.9, 1.0,
      1.25, 1.5, 1.75, 2.0, 2.5, 3.0, 3.5, 4.0, 4.5, 5, 7, 9, 10, 15, 20, 30, 60, 120] }

/-- Source lines 38-41. -/
def PlacementApplyFailedCount : Opts :=
  { name := "placement_apply_failed_counter"
    help := "Number of failed to apply cluster resource placement"
    kind := Kind.counter
    labelNames := ["name"]
    buckets := [] }

/-- Source lines 42-45. -/
def PlacementApplySucceedCount : Opts :=
  { name := "placement_apply_succeed_counter"
    help := "Number of successfully applied cluster resource placement"
    kind := Kind.counter
    labelNames := ["name"]
    buckets := [] }

/-- Source lines 69-81. -/
def SchedulingCycleDurationMilliseconds : Opts :=
  { name := "scheduling_cycle_duration_milliseconds"
    help := "The duration of a scheduling cycle run in milliseconds"
    kind := Kind.histogram
    labelNames := ["is_failed", "needs_requeue"]
    buckets := [10, 50, 100, 500, 1000, 5000, 10000, 50000] }

/-- Source lines 84-87. -/
def SchedulerActiveWorkers : Opts :=
  { name := "scheduling_active_workers"
    help := "Number of currently running scheduling loop"
    kind := Kind.gauge
    labelNames := []
    buckets := [] }

/-- Source lines 102-105. -/
def FleetWorkProcessingRequestsTotal : Opts :=
  { name := "fleet_work_processing_requests_total"
    help := "Total number of processing requests of work objects, including retries and periodic checks"
    kind := Kind.counter
    labelNames := ["apply_status", "availability_status", "diff_reporting_status"]
    buckets := [] }

/-- Source lines 123-126. -/
def FleetManifestProcessingRequestsTotal : Opts :=
  { name := "fleet_manifest_processing_requests_total"
    help := "Total number of processing requests of manifest objects, including retries and periodic checks"
    kind := Kind.counter
    labelNames := ["apply_status", "availability_status", "diff_reporting_status",
      "drift_detection_status", "diff_detection_status"]
    buckets := [] }

/-- Every series the file declares, in source order. -/
def catalog : List Opts :=
  [JoinResultMetrics, LeaveResultMetrics, WorkApplyTime, PlacementApplyFailedCount,
   PlacementApplySucceedCount, SchedulingCycleDurationMilliseconds, SchedulerActiveWorkers,
   FleetWorkProcessingRequestsTotal, FleetManifestProcessingRequestsTotal]

/-- The `float64` nearest to the positive rational `n / d`, as an exact
rational: the quotient is scaled to a 53-bit significand (fewer bits below the
normal range) and rounded to nearest, ties to even.  Magnitudes past the
finite range of `float64` are not cut off. -/
def roundFloat64Pos (n d : Nat) : ℚ :=
  let a : Int := Nat.log2 n
  let b : Int := Nat.log2 d
  let l : Int := if d * 2 ^ (a - b).toNat ≤ n * 2 ^ (b - a).toNat then a - b else a - b - 1
  let e : Int := max (l - 52) (-1074)
  let N := n * 2 ^ (-e).toNat
  let D := d * 2 ^ e.toNat
  let m0 := N / D
  let r := N % D
  let m := if D < 2 * r ∨ (2 * r = D ∧ m0 % 2 = 1) then m0 + 1 else m0
  mkRat (m * 2 ^ e.toNat) (2 ^ (-e).toNat)

/-- The value a `float64` holds for the constant `q`, as an exact rational. -/
def roundFloat64 (q : ℚ) : ℚ :=
  if q = 0 then 0
  else if 0 < q then roundFloat64Pos q.num.toNat q.den
  else - roundFloat64Pos (-q).num.toNat q.den

/-- The boundaries as the `[]float64` literal of the declaration stores them. -/
def Opts.upperBounds (o : Opts) : List ℚ :=
  o.buckets.map roundFloat64

/-- The name, kind and ordered label keys of a declaration. -/
def Opts.schema (o : Opts) : String × Kind × List String :=
  (o.name, o.kind, o.labelNames)

/-! ## The registry primitive -/

/-- Modelled from the spec: the label map handed to `With`, the registry's
`withLabels(map[string]string)`.  A map literal has pairwise distinct keys. -/
abbrev Labels := List (String × String)

/-- Modelled from the spec: the value of every declared label name, in declared
order, or the registry's "label name missing" error. -/
def lookupAll (labels : Labels) : List String → Except String (List String)
  | [] => .ok []
  | n :: ns =>
    match labels.lookup n with
    | none => .error "label name missing in label map"
    | some v =>
      match lookupAll labels ns with
      | .error e => .error e
      | .ok vs => .ok (v :: vs)

/-- Modelled from the spec: `With` on a vector declared with `o`.  The registry
raises its label-mismatch error when the number of supplied labels differs
from the number of declared label names or when a declared name is missing;
otherwise the child series is identified by the ordered label values. -/
def MetricVec.with (o : Opts) (labels : Labels) : Except String (List String) :=
  if labels.length ≠ o.labelNames.length then
    .error "inconsistent label cardinality"
  else
    lookupAll labels o.labelNames

/-- Modelled from the spec: the children of a counter vector, keyed by their
ordered label values; `none` is a label combination never emitted.  Counter
values are natural numbers. -/
abbrev CounterVec := List String → Option Nat

/-- Modelled from the spec: the value read back for a label combination of a
counter vector; a combination never emitted reads zero. -/
def CounterVec.value (m : CounterVec) (lvs : List String) : Nat :=
  (m lvs).getD 0

/-- Modelled from the spec: `Inc` on the child with label values `lvs`, which
`With` creates at zero when it does not exist yet. -/
def CounterVec.inc (m : CounterVec) (lvs : List String) : CounterVec :=
  fun k => if k = lvs then some (m.value lvs + 1) else m k

/-- Modelled from the spec: the accumulated state of one histogram child: one
count per declared boundary (not cumulative), the sample count and the sum. -/
structure HistogramCounts where
  buckets : List Nat
  count : Nat
  sum : ℚ

/-- Modelled from the spec: a histogram child as created, all counts zero. -/
def newHistogram (upperBounds : List ℚ) : HistogramCounts :=
  { buckets := List.replicate upperBounds.length 0, count := 0, sum := 0 }

/-- Modelled from the spec: the index of the first boundary that is `≥ v`, or
the number of boundaries when there is none. -/
def findBucket : List ℚ → ℚ → Nat
  | [], _ => 0
  | b :: bs, v => if v ≤ b then 0 else findBucket bs v + 1

/-- Modelled from the spec: add one to the count at index `k`; an index past
the end, the implicit `+Inf` bucket, changes no stored count. -/
def incAt : List Nat → Nat → List Nat
  | [], _ => []
  | c :: cs, 0 => (c + 1) :: cs
  | c :: cs, k + 1 => c :: incAt cs k

/-- Modelled from the spec: `Observe` on one histogram child. -/
def HistogramCounts.observe (upperBounds : List ℚ) (h : HistogramCounts) (v : ℚ) :
    HistogramCounts :=
  { buckets := incAt h.buckets (findBucket upperBounds v)
    count := h.count + 1
    sum := h.sum + v }

/-- Modelled from the spec: the cumulative count exposed for the bucket with
index `i`, the sum of the counts up to and including that bucket. -/
def HistogramCounts.cumulative (h : HistogramCounts) (i : Nat) : Nat :=
  (h.buckets.take (i + 1)).sum

/-- Modelled from the spec: the children of a histogram vector, keyed by their
ordered label values. -/
abbrev HistogramVec := List String → Option HistogramCounts

/-- Modelled from the spec: `With(labels).Observe(v)` on a histogram vector
declared with `o`; the sample is compared with the stored boundaries. -/
def HistogramVec.observe (o : Opts) (m : HistogramVec) (labels : Labels) (v : ℚ) :
    Except String HistogramVec :=
  match MetricVec.with o labels with
  | .error e => .error e
  | .ok lvs =>
    .ok (fun k =>
      if k = lvs then
        some (((m lvs).getD (newHistogram o.upperBounds)).observe o.upperBounds v)
      else m k)

/-- Modelled from the spec: the cumulative count read back for bucket `i` of a
label combination; a combination never observed reads zero. -/
def HistogramVec.cumulative (m : HistogramVec) (lvs : List String) (i : Nat) : Nat :=
  match m lvs with
  | none => 0
  | some h => h.cumulative i

/-- Modelled from the spec: the `+Inf` cumulative bucket count read back for a
label combination, which is the sample count of the child. -/
def HistogramVec.infCount (m : HistogramVec) (lvs : List String) : Nat :=
  match m lvs with
  | none => 0
  | some h => h.count

/-- Modelled from the spec: the children of a gauge vector. -/
abbrev GaugeVec := List String → Option ℚ

/-- Modelled from the spec: a registry that rejects a repeated name. -/
def register (r : List Opts) (o : Opts) : Except String (List Opts) :=
  if r.any (fun p => p.name == o.name) then
    .error "duplicate metrics collector registration attempted"
  else
    .ok (r ++ [o])

/-- Register declarations one after the other, stopping at the first rejection. -/
def registerAll (r : List Opts) : List Opts → Except String (List Opts)
  | [] => .ok r
  | o :: os =>
    match register r o with
    | .error e => .error e
    | .ok r' => registerAll r' os

/-! ## Catalog state and the two wrappers -/

/-- The accumulated values of the nine series. -/
structure Catalog where
  joinResult : CounterVec
  leaveResult : CounterVec
  workApplyTime : HistogramVec
  placementApplyFailed : CounterVec
  placementApplySucceed : CounterVec
  schedulingCycleDuration : HistogramVec
  schedulerActiveWorkers : GaugeVec
  fleetWorkProcessingRequests : CounterVec
  fleetManifestProcessingRequests : CounterVec

/-- The catalog at process start: no label combination emitted. -/
def Catalog.init : Catalog :=
  { joinResult := fun _ => none
    leaveResult := fun _ => none
    workApplyTime := fun _ => none
    placementApplyFailed := fun _ => none
    placementApplySucceed := fun _ => none
    schedulingCycleDuration := fun _ => none
    schedulerActiveWorkers := fun _ => none
    fleetWorkProcessingRequests := fun _ => none
    fleetManifestProcessingRequests := fun _ => none }

/-- The label map of source lines 50-54. -/
def joinReportLabels : Labels := [("result", "success")]

/-- The label map of source lines 57-61. -/
def leaveReportLabels : Labels := [("result", "success")]

/-- Source lines 49-55: `JoinResultMetrics.With(...).Inc()`. -/
def ReportJoinResultMetric (s : Catalog) : Except String Catalog :=
  match MetricVec.with JoinResultMetrics joinReportLabels with
  | .error e => .error e
  | .ok lvs => .ok { s with joinResult := s.joinResult.inc lvs }

/-- Source lines 56-62: `LeaveResultMetrics.With(...).Inc()`. -/
def ReportLeaveResultMetric (s : Catalog) : Except String Catalog :=
  match MetricVec.with LeaveResultMetrics leaveReportLabels with
  | .error e => .error e
  | .ok lvs => .ok { s with leaveResult := s.leaveResult.inc lvs }

/-- A call of one of the two wrappers. -/
inductive Call where
  | join
  | leave
  deriving DecidableEq, Repr

/-- Perform one wrapper call. -/
def Catalog.call (s : Catalog) : Call → Except String Catalog
  | Call.join => ReportJoinResultMetric s
  | Call.leave => ReportLeaveResultMetric s

/-- Perform a sequence of wrapper calls in order, stopping at the first failure. -/
def Catalog.run (s : Catalog) : List Call → Except String Catalog
  | [] => .ok s
  | c :: cs =>
    match s.call c with
    | .error e => .error e
    | .ok s' => s'.run cs

/-! ## Emission by the callers of the two histograms -/

/-- Modelled from the spec: a caller recording `v` seconds on
`work_apply_time_seconds` under the label `name`. -/
def observeWorkApplyTime (m : HistogramVec) (name : String) (v : ℚ) :
    Except String HistogramVec :=
  HistogramVec.observe WorkApplyTime m [("name", name)] v

/-- Modelled from the spec: a sequence of recordings on
`work_apply_time_seconds`, in order. -/
def observeWorkApplyTimes (m : HistogramVec) : List (String × ℚ) → Except String HistogramVec
  | [] => .ok m
  | (name, v) :: rest =>
    match observeWorkApplyTime m name v with
    | .error e => .error e
    | .ok m' => observeWorkApplyTimes m' rest

/-- Modelled from the spec: a caller recording a duration of `d` milliseconds
on `scheduling_cycle_duration_milliseconds` under one label combination. -/
def observeSchedulingCycle (m : HistogramVec) (isFailed needsRequeue : String) (d : ℚ) :
    Except String HistogramVec :=
  HistogramVec.observe SchedulingCycleDurationMilliseconds m
    [("is_failed", isFailed), ("needs_requeue", needsRequeue)] d

/-- The state invariant of a histogram vector with boundaries `ub`: every
child has one count per boundary. -/
def BucketsSized (ub : List ℚ) (m : HistogramVec) : Prop :=
  ∀ lvs h, m lvs = some h → h.buckets.length = ub.length

/-! ## Shared lemmas -/

theorem with_joinReportLabels :
    MetricVec.with JoinResultMetrics joinReportLabels = .ok ["success"] := rfl

theorem with_leaveReportLabels :
    MetricVec.with LeaveResultMetrics leaveReportLabels = .ok ["success"] := rfl

theorem reportJoin_eq (s : Catalog) :
    ReportJoinResultMetric s = .ok { s with joinResult := s.joinResult.inc ["success"] } := rfl

theorem reportLeave_eq (s : Catalog) :
    ReportLeaveResultMetric s = .ok { s with leaveResult := s.leaveResult.inc ["success"] } := rfl

theorem inc_same (m : CounterVec) (lvs : List String) :
    m.inc lvs lvs = some (m.value lvs + 1) := by
  simp [CounterVec.inc]

theorem inc_other (m : CounterVec) (lvs k : List String) (h : k ≠ lvs) :
    m.inc lvs k = m k := by
  simp [CounterVec.inc, h]

theorem value_inc_same (m : CounterVec) (lvs : List String) :
    (m.inc lvs).value lvs = m.value lvs + 1 := by
  simp [CounterVec.value, CounterVec.inc]

/-- What every sequence of wrapper calls does to a catalog state: it completes,
only the two `result=success` entries move, each by the number of calls of its
own wrapper. -/
theorem run_spec (cs : List Call) : ∀ s : Catalog, ∃ s', s.run cs = .ok s' ∧
    s'.joinResult.value ["success"] = s.joinResult.value ["success"] + cs.count Call.join ∧
    s'.leaveResult.value ["success"] = s.leaveResult.value ["success"] + cs.count Call.leave ∧
    (∀ k, k ≠ ["success"] → s'.joinResult k = s.joinResult k) ∧
    (∀ k, k ≠ ["success"] → s'.leaveResult k = s.leaveResult k) := by
  induction cs with
  | nil => intro s; exact ⟨s, rfl, by simp, by simp, fun _ _ => rfl, fun _ _ => rfl⟩
  | cons c cs ih =>
    intro s
    cases c with
    | join =>
      obtain ⟨s', hrun, hj, hl, hfj, hfl⟩ :=
        ih { s with joinResult := s.joinResult.inc ["success"] }
      refine ⟨s', ?_, ?_, ?_, ?_, ?_⟩
      · simpa [Catalog.run, Catalog.call, reportJoin_eq] using hrun
      · rw [hj, value_inc_same]; simp; omega
      · rw [hl]; simp
      · intro k hk; rw [hfj k hk]; exact inc_other _ _ _ hk
      · intro k hk; rw [hfl k hk]
    | leave =>
      obtain ⟨s', hrun, hj, hl, hfj, hfl⟩ :=
        ih { s with leaveResult := s.leaveResult.inc ["success"] }
      refine ⟨s', ?_, ?_, ?_, ?_, ?_⟩
      · simpa [Catalog.run, Catalog.call, reportLeave_eq] using hrun
      · rw [hj]; simp
      · rw [hl, value_inc_same]; simp; omega
      · intro k hk; rw [hfj k hk]
      · intro k hk; rw [hfl k hk]; exact inc_other _ _ _ hk

/-! ## Shared lemmas on histograms -/

theorem workApplyTime_chain : WorkApplyTime.buckets.Chain' (· < ·) := by
  simp [WorkApplyTime]
  norm_num

theorem workApplyTime_sorted : WorkApplyTime.buckets.Pairwise (· < ·) :=
  List.chain'_iff_pairwise.mp workApplyTime_chain

theorem workApplyTime_upperBounds_sorted : WorkApplyTime.upperBounds.Pairwise (· < ·) := by
  with_unfolding_all decide

theorem incAt_length (l : List Nat) : ∀ k, (incAt l k).length = l.length := by
  induction l with
  | nil => intro k; rfl
  | cons c cs ih =>
    intro k
    cases k with
    | zero => rfl
    | succ k => simp [incAt, ih k]

theorem take_sum_incAt (l : List Nat) : ∀ k n,
    ((incAt l k).take n).sum = (l.take n).sum + if k < n ∧ k < l.length then 1 else 0 := by
  induction l with
  | nil => intro k n; simp [incAt]
  | cons c cs ih =>
    intro k n
    cases n with
    | zero => simp
    | succ n =>
      cases k with
      | zero => simp [incAt]; omega
      | succ k =>
        simp only [incAt, List.take_succ_cons, List.sum_cons, ih k n, List.length_cons,
          Nat.add_lt_add_iff_right]
        omega

theorem findBucket_le_iff (v : ℚ) (ub : List ℚ) (hs : ub.Pairwise (· < ·)) :
    ∀ (i : Nat) (b : ℚ), ub[i]? = some b → (findBucket ub v ≤ i ↔ v ≤ b) := by
  induction ub with
  | nil => intro i b h; simp at h
  | cons a as ih =>
    intro i b h
    rw [List.pairwise_cons] at hs
    by_cases hva : v ≤ a
    · simp only [findBucket, hva, if_true, Nat.zero_le, true_iff]
      cases i with
      | zero =>
        simp at h
        exact h ▸ hva
      | succ i =>
        simp at h
        exact le_trans hva (le_of_lt (hs.1 b (List.mem_iff_getElem?.mpr ⟨i, h⟩)))
    · simp only [findBucket, hva, if_false]
      cases i with
      | zero =>
        simp at h
        subst h
        simp [hva]
      | succ i =>
        simp at h
        rw [Nat.add_le_add_iff_right]
        exact ih hs.2 i b h

theorem observe_cumulative (ub : List ℚ) (hs : ub.Pairwise (· < ·)) (h : HistogramCounts)
    (hlen : h.buckets.length = ub.length) (v : ℚ) (i : Nat) (b : ℚ) (hb : ub[i]? = some b) :
    (h.observe ub v).cumulative i = h.cumulative i + if v ≤ b then 1 else 0 := by
  have hi : i < ub.length := by
    by_contra hge
    rw [List.getElem?_eq_none (by omega)] at hb
    cases hb
  have hiff := findBucket_le_iff v ub hs i b hb
  simp only [HistogramCounts.cumulative, HistogramCounts.observe, take_sum_incAt]
  by_cases hvb : v ≤ b
  · have hk : findBucket ub v ≤ i := hiff.mpr hvb
    rw [if_pos ⟨by omega, by omega⟩, if_pos hvb]
  · have hk : ¬ findBucket ub v ≤ i := fun hk => hvb (hiff.mp hk)
    rw [if_neg (fun hc => hk (by omega)), if_neg hvb]

theorem observeWorkApplyTime_eq (m : HistogramVec) (name : String) (v : ℚ) :
    observeWorkApplyTime m name v = .ok (fun k =>
      if k = [name] then
        some (((m [name]).getD (newHistogram WorkApplyTime.upperBounds)).observe
          WorkApplyTime.upperBounds v)
      else m k) := by
  have hw : MetricVec.with WorkApplyTime [("name", name)] = .ok [name] := by
    simp [MetricVec.with, lookupAll, WorkApplyTime, List.lookup]
  simp only [observeWorkApplyTime, HistogramVec.observe, hw]

theorem observeSchedulingCycle_eq (m : HistogramVec) (x y : String) (d : ℚ) :
    observeSchedulingCycle m x y d = .ok (fun k =>
      if k = [x, y] then
        some (((m [x, y]).getD
          (newHistogram SchedulingCycleDurationMilliseconds.upperBounds)).observe
          SchedulingCycleDurationMilliseconds.upperBounds d)
      else m k) := by
  have hw : MetricVec.with SchedulingCycleDurationMilliseconds
      [("is_failed", x), ("needs_requeue", y)] = .ok [x, y] := by
    simp [MetricVec.with, lookupAll, SchedulingCycleDurationMilliseconds, List.lookup]
  simp only [observeSchedulingCycle, HistogramVec.observe, hw]

theorem bucketsSized_init (ub : List ℚ) : BucketsSized ub (fun _ => none) := by
  intro lvs h hm
  cases hm

theorem getD_new_sized (ub : List ℚ) (m : HistogramVec) (hm : BucketsSized ub m)
    (lvs : List String) : ((m lvs).getD (newHistogram ub)).buckets.length = ub.length := by
  cases hc : m lvs with
  | none => simp [newHistogram]
  | some h => simpa using hm lvs h hc

/-- What a sequence of recordings on `work_apply_time_seconds` does: it
completes, keeps every child sized to the boundaries, and raises the sample
count of a name by the number of recordings under that name. -/
theorem observeWorkApplyTimes_spec (obs : List (String × ℚ)) : ∀ m : HistogramVec,
    BucketsSized WorkApplyTime.upperBounds m →
    ∃ m', observeWorkApplyTimes m obs = .ok m' ∧ BucketsSized WorkApplyTime.upperBounds m' ∧
      ∀ name, m'.infCount [name] = m.infCount [name] + obs.countP (fun p => p.1 == name) := by
  induction obs with
  | nil => intro m hm; exact ⟨m, rfl, hm, by simp⟩
  | cons p rest ih =>
    intro m hm
    obtain ⟨n, v⟩ := p
    have hsized : BucketsSized WorkApplyTime.upperBounds (fun k =>
        if k = [n] then
          some (((m [n]).getD (newHistogram WorkApplyTime.upperBounds)).observe
            WorkApplyTime.upperBounds v)
        else m k) := by
      intro lvs h hlv
      by_cases hk : lvs = [n]
      · simp only [hk, if_true, Option.some.injEq] at hlv
        subst hlv
        simp only [HistogramCounts.observe, incAt_length]
        exact getD_new_sized _ m hm [n]
      · simp only [hk, if_false] at hlv
        exact hm lvs h hlv
    obtain ⟨m', hrun, hm', hcount⟩ := ih _ hsized
    refine ⟨m', ?_, hm', ?_⟩
    · simp only [observeWorkApplyTimes, observeWorkApplyTime_eq]
      exact hrun
    · intro name
      rw [hcount name, List.countP_cons]
      by_cases hn : n = name
      · subst hn
        cases hc : m [n] <;>
          simp [HistogramVec.infCount, hc, HistogramCounts.observe, newHistogram] <;> omega
      · have hne : ¬ ([name] = [n]) := by
          intro hc
          exact hn (List.cons.inj hc).1.symm
        simp [HistogramVec.infCount, hne, hn]

/-! ## The two wrappers -/

/-- C1: in every catalog state each wrapper completes, sets its own series at
`result=success` to the previous value plus one, leaves every other label
combination of that series unchanged and leaves the eight other series
unchanged. -/
theorem report_success_frame (s : Catalog) :
    (∃ s', ReportJoinResultMetric s = .ok s' ∧
      s'.joinResult ["success"] = some (s.joinResult.value ["success"] + 1) ∧
      s'.joinResult.value ["success"] = s.joinResult.value ["success"] + 1 ∧
      (∀ k, k ≠ ["success"] → s'.joinResult k = s.joinResult k) ∧
      s'.leaveResult = s.leaveResult ∧
      s'.workApplyTime = s.workApplyTime ∧
      s'.placementApplyFailed = s.placementApplyFailed ∧
      s'.placementApplySucceed = s.placementApplySucceed ∧
      s'.schedulingCycleDuration = s.schedulingCycleDuration ∧
      s'.schedulerActiveWorkers = s.schedulerActiveWorkers ∧
      s'.fleetWorkProcessingRequests = s.fleetWorkProcessingRequests ∧
      s'.fleetManifestProcessingRequests = s.fleetManifestProcessingRequests) ∧
    (∃ s', ReportLeaveResultMetric s = .ok s' ∧
      s'.leaveResult ["success"] = some (s.leaveResult.value ["success"] + 1) ∧
      s'.leaveResult.value ["success"] = s.leaveResult.value ["success"] + 1 ∧
      (∀ k, k ≠ ["success"] → s'.leaveResult k = s.leaveResult k) ∧
      s'.joinResult = s.joinResult ∧
      s'.workApplyTime = s.workApplyTime ∧
      s'.placementApplyFailed = s.placementApplyFailed ∧
      s'.placementApplySucceed = s.placementApplySucceed ∧
      s'.schedulingCycleDuration = s.schedulingCycleDuration ∧
      s'.schedulerActiveWorkers = s.schedulerActiveWorkers ∧
      s'.fleetWorkProcessingRequests = s.fleetWorkProcessingRequests ∧
      s'.fleetManifestProcessingRequests = s.fleetManifestProcessingRequests) := by
  constructor
  · exact ⟨_, reportJoin_eq s, inc_same s.joinResult ["success"],
      value_inc_same s.joinResult ["success"],
      fun k hk => inc_other s.joinResult ["success"] k hk,
      rfl, rfl, rfl, rfl, rfl, rfl, rfl, rfl⟩
  · exact ⟨_, reportLeave_eq s, inc_same s.leaveResult ["success"],
      value_inc_same s.leaveResult ["success"],
      fun k hk => inc_other s.leaveResult ["success"] k hk,
      rfl, rfl, rfl, rfl, rfl, rfl, rfl, rfl⟩

/-- C2: from the freshly initialised catalog every sequence of wrapper calls
completes, `join_result_counter` at `result=success` then reads the number of
`ReportJoinResultMetric` calls in the sequence, whatever `ReportLeaveResultMetric`
calls are interleaved, and `result=failure` is absent. -/
theorem join_success_counts_calls (cs : List Call) :
    ∃ s, Catalog.init.run cs = .ok s ∧
      s.joinResult.value ["success"] = cs.count Call.join ∧
      s.joinResult ["failure"] = none ∧
      s.joinResult.value ["failure"] = 0 := by
  obtain ⟨s, hrun, hj, _, hfj, _⟩ := run_spec cs Catalog.init
  have hf : s.joinResult ["failure"] = none := by
    rw [hfj ["failure"] (by decide)]; rfl
  refine ⟨s, hrun, ?_, hf, ?_⟩
  · rw [hj]; simp [Catalog.init, CounterVec.value]
  · simp [CounterVec.value, hf]

/-- C3: both wrappers supply the value `success` for the key `result`, and in
every state reached from the initial catalog by wrapper calls a label
combination present in `join_result_counter` or `leave_result_counter` is
`result=success`. -/
theorem only_success_reported (cs : List Call) :
    joinReportLabels.lookup "result" = some "success" ∧
    leaveReportLabels.lookup "result" = some "success" ∧
    ∃ s, Catalog.init.run cs = .ok s ∧
      (∀ k, s.joinResult k ≠ none → k = ["success"]) ∧
      (∀ k, s.leaveResult k ≠ none → k = ["success"]) := by
  obtain ⟨s, hrun, _, _, hfj, hfl⟩ := run_spec cs Catalog.init
  refine ⟨rfl, rfl, s, hrun, ?_, ?_⟩
  · intro k hk
    by_contra hne
    exact hk (by rw [hfj k hne]; rfl)
  · intro k hk
    by_contra hne
    exact hk (by rw [hfl k hne]; rfl)

/-- C10: the keys each wrapper supplies are the label names declared for its
series, `With` returns the child `result=success` without error, and the
wrapper completes in every catalog state. -/
theorem report_never_fails (s : Catalog) :
    joinReportLabels.map Prod.fst = JoinResultMetrics.labelNames ∧
    leaveReportLabels.map Prod.fst = LeaveResultMetrics.labelNames ∧
    joinReportLabels.length = JoinResultMetrics.labelNames.length ∧
    leaveReportLabels.length = LeaveResultMetrics.labelNames.length ∧
    MetricVec.with JoinResultMetrics joinReportLabels = .ok ["success"] ∧
    MetricVec.with LeaveResultMetrics leaveReportLabels = .ok ["success"] ∧
    (∃ s', ReportJoinResultMetric s = .ok s') ∧
    (∃ s', ReportLeaveResultMetric s = .ok s') :=
  ⟨rfl, rfl, rfl, rfl, with_joinReportLabels, with_leaveReportLabels,
    ⟨_, reportJoin_eq s⟩, ⟨_, reportLeave_eq s⟩⟩

/-! ## The declarations -/

/-- C4: the catalog declares nine series, with the names, kinds and ordered
label keys of the table. -/
theorem catalog_schema :
    catalog.length = 9 ∧
    catalog.map Opts.schema =
      [("join_result_counter", Kind.counter, ["result"]),
       ("leave_result_counter", Kind.counter, ["result"]),
       ("work_apply_time_seconds", Kind.histogram, ["name"]),
       ("placement_apply_failed_counter", Kind.counter, ["name"]),
       ("placement_apply_succeed_counter", Kind.counter, ["name"]),
       ("scheduling_cycle_duration_milliseconds", Kind.histogram,
         ["is_failed", "needs_requeue"]),
       ("scheduling_active_workers", Kind.gauge, []),
       ("fleet_work_processing_requests_total", Kind.counter,
         ["apply_status", "availability_status", "diff_reporting_status"]),
       ("fleet_manifest_processing_requests_total", Kind.counter,
         ["apply_status", "availability_status", "diff_reporting_status",
          "drift_detection_status", "diff_detection_status"])] :=
  ⟨rfl, rfl⟩

/-- C5: the names of the declared series are pairwise distinct, and
registering the whole catalog, in order, into an empty registry that rejects a
repeated name succeeds with all nine declarations registered. -/
theorem catalog_names_distinct :
    (catalog.map Opts.name).Nodup ∧
    (∀ i j : Fin catalog.length, i ≠ j → (catalog.get i).name ≠ (catalog.get j).name) ∧
    registerAll [] catalog = .ok catalog := by
  have hn : (catalog.map Opts.name).Nodup := by decide
  refine ⟨hn, ?_, rfl⟩
  intro i j hij heq
  apply hij
  have hinj := List.nodup_iff_injective_get.mp hn
  apply Fin.ext
  exact congrArg Fin.val (@hinj ⟨i.1, by simp⟩ ⟨j.1, by simp⟩ (by simpa using heq))

/-! ## The histograms -/

/-- C6: the boundaries of `work_apply_time_seconds`, as exact decimal
rationals, are 31 in number, strictly ascending, start at 0.01 and end at 120,
and every boundary lies between these two. -/
theorem workApplyTime_buckets :
    WorkApplyTime.buckets.length = 31 ∧
    WorkApplyTime.buckets.Pairwise (· < ·) ∧
    WorkApplyTime.buckets.head? = some (1 / 100) ∧
    WorkApplyTime.buckets.getLast? = some 120 ∧
    (∀ b ∈ WorkApplyTime.buckets, 1 / 100 ≤ b ∧ b ≤ 120) := by
  refine ⟨rfl, workApplyTime_sorted, ?_, ?_, ?_⟩
  · simp [WorkApplyTime]
    norm_num
  · simp [WorkApplyTime]
  · intro b hb
    simp only [WorkApplyTime, List.mem_cons, List.mem_singleton, List.not_mem_nil,
      or_false] at hb
    rcases hb with h | h | h | h | h | h | h | h | h | h | h | h | h | h | h | h | h | h | h |
      h | h | h | h | h | h | h | h | h | h | h | h <;> subst h <;> norm_num

/-- C7: the boundaries of `scheduling_cycle_duration_milliseconds` are
10, 50, 100, 500, 1000, 5000, 10000, 50000 in this order, strictly ascending. -/
theorem schedulingCycle_buckets :
    SchedulingCycleDurationMilliseconds.buckets =
      [10, 50, 100, 500, 1000, 5000, 10000, 50000] ∧
    SchedulingCycleDurationMilliseconds.buckets.Pairwise (· < ·) := by
  refine ⟨rfl, List.chain'_iff_pairwise.mp ?_⟩
  simp [SchedulingCycleDurationMilliseconds]
  norm_num

/-- C8: after any sequence of recordings on `work_apply_time_seconds`, one
more recording of `v` under `name` adds one to the cumulative count of every
bucket whose stored boundary, the `float64` value of the declared constant `c`,
is `≥ v` and leaves it unchanged when that boundary is `< v`, and the `+Inf`
count of `name` is the number of recordings made under `name`. -/
theorem workApplyTime_observe (obs : List (String × ℚ)) (name : String) (v : ℚ)
    (i : Nat) (c : ℚ) (hc : WorkApplyTime.buckets[i]? = some c) :
    ∃ m m', observeWorkApplyTimes (fun _ => none) obs = .ok m ∧
      observeWorkApplyTime m name v = .ok m' ∧
      (v ≤ roundFloat64 c → m'.cumulative [name] i = m.cumulative [name] i + 1) ∧
      (roundFloat64 c < v → m'.cumulative [name] i = m.cumulative [name] i) ∧
      m.infCount [name] = obs.countP (fun p => p.1 == name) ∧
      m'.infCount [name] = obs.countP (fun p => p.1 == name) + 1 := by
  have hb : WorkApplyTime.upperBounds[i]? = some (roundFloat64 c) := by
    simp only [Opts.upperBounds, List.getElem?_map, hc, Option.map_some']
  obtain ⟨m, hrun, hm, hcount⟩ :=
    observeWorkApplyTimes_spec obs (fun _ => none) (bucketsSized_init _)
  obtain ⟨m', hrun', _, hcount'⟩ :=
    observeWorkApplyTimes_spec [(name, v)] m hm
  have hstep : observeWorkApplyTime m name v = .ok m' := by
    simp only [observeWorkApplyTimes, observeWorkApplyTime_eq] at hrun'
    rw [observeWorkApplyTime_eq]
    exact hrun'
  have hinf : m.infCount [name] = obs.countP (fun p => p.1 == name) := by
    rw [hcount name]; simp [HistogramVec.infCount]
  have hm'eq := hstep
  rw [observeWorkApplyTime_eq] at hm'eq
  have hm'val : m' [name] =
      some (((m [name]).getD (newHistogram WorkApplyTime.upperBounds)).observe
        WorkApplyTime.upperBounds v) := by
    have := Except.ok.inj hm'eq
    rw [← this]; simp
  have hcum : m'.cumulative [name] i =
      m.cumulative [name] i + if v ≤ roundFloat64 c then 1 else 0 := by
    have hobs := observe_cumulative WorkApplyTime.upperBounds workApplyTime_upperBounds_sorted
      ((m [name]).getD (newHistogram WorkApplyTime.upperBounds))
      (getD_new_sized _ m hm [name]) v i (roundFloat64 c) hb
    simp only [HistogramVec.cumulative, hm'val, hobs]
    cases hc : m [name] with
    | none => simp [newHistogram, HistogramCounts.cumulative]
    | some h => simp
  refine ⟨m, m', hrun, hstep, ?_, ?_, hinf, ?_⟩
  · intro hvb; rw [hcum, if_pos hvb]
  · intro hbv; rw [hcum, if_neg (not_le.mpr hbv)]; rfl
  · rw [hcount' name, hinf]; simp

/-- Witness of C8: after one recording of 0.3 under `a`, recording the
`float64` value of 0.1 under `a` raises the cumulative count of the bucket
declared with boundary 0.1. -/
theorem workApplyTime_observe_witness :
    WorkApplyTime.buckets[3]? = some (1 / 10) ∧
    roundFloat64 (1 / 10) = mkRat 3602879701896397 36028797018963968 ∧
    ∃ m m', observeWorkApplyTimes (fun _ => none) [("a", 3 / 10)] = .ok m ∧
      observeWorkApplyTime m "a" (mkRat 3602879701896397 36028797018963968) = .ok m' ∧
      m'.cumulative ["a"] 3 = m.cumulative ["a"] 3 + 1 ∧
      m.infCount ["a"] = 1 ∧ m'.infCount ["a"] = 2 := by
  have hc : WorkApplyTime.buckets[3]? = some (1 / 10) := by
    simp [WorkApplyTime]; norm_num
  have hr : roundFloat64 (1 / 10) = mkRat 3602879701896397 36028797018963968 :=
    le_antisymm (by with_unfolding_all decide) (by with_unfolding_all decide)
  obtain ⟨m, m', h1, h2, h3, _, h5, h6⟩ :=
    workApplyTime_observe [("a", 3 / 10)] "a" (mkRat 3602879701896397 36028797018963968)
      3 (1 / 10) hc
  exact ⟨hc, hr, m, m', h1, h2, h3 (le_of_eq hr.symm), by simpa using h5, by simpa using h6⟩

/-- C9: recording a duration under one label combination of
`scheduling_cycle_duration_milliseconds` completes and leaves the child of
every other combination, its sample count, sum and bucket counts, unchanged. -/
theorem schedulingCycle_independent (m : HistogramVec) (d : ℚ)
    (isFailed needsRequeue isFailed' needsRequeue' : String)
    (h : (isFailed, needsRequeue) ≠ (isFailed', needsRequeue')) :
    ∃ m', observeSchedulingCycle m isFailed needsRequeue d = .ok m' ∧
      m' [isFailed', needsRequeue'] = m [isFailed', needsRequeue'] := by
  refine ⟨_, observeSchedulingCycle_eq m isFailed needsRequeue d, ?_⟩
  · have hne : ¬ ([isFailed', needsRequeue'] = [isFailed, needsRequeue]) := by
      intro hc
      apply h
      simp at hc
      rw [hc.1, hc.2]
    simp [hne]

/-- Witness of C9: recording 100 ms under `is_failed=true, needs_requeue=false`
in the fresh vector leaves `is_failed=false, needs_requeue=false` absent. -/
theorem schedulingCycle_independent_witness :
    (("true", "false") : String × String) ≠ ("false", "false") ∧
    ∃ m', observeSchedulingCycle (fun _ => none) "true" "false" 100 = .ok m' ∧
      m' ["false", "false"] = none :=
  ⟨by decide,
    schedulingCycle_independent (fun _ => none) 100 "true" "false" "false" "false" (by decide)⟩

end Metrics
